import Mathlib

/-!
Shallow embedding of `src/bato_downloader/batch_downloader.py` and proofs about
its behaviour.

The Python module drives a batch download pipeline:
a failure ledger persisted as `failed_chapters.json` (`load_failed_chapters`,
`save_failed_chapters`), a per-series orchestrator (`download_series`), a retry
pass (`retry_failed`), and a background packaging worker (`converter_worker`)
consuming a FIFO queue, shut down by the `__main__` block.

Modelling conventions:
- The external collaborators (`get_manga_info`, `download_chapter`,
  `sanitize_filename`, `convert_chapter_to_cbz`) are parameters: `sanitize` is
  an arbitrary function on strings and the fallible calls are oracles returning
  `Bool` (`true` = the call returned normally, `false` = it raised), matching
  the fact that the Python code only ever branches on "raised or not".
- The ledger file is modelled as `Option FileContent`: `none` means the file
  `failed_chapters.json` does not exist, `some (.records rs)` means it holds
  the JSON serialization of the record list `rs`, and `some .corrupt` means it
  holds text that `json.load` rejects with a `JSONDecodeError`.
- The packaging queue is a list of `PackagingTask`, appended on `put`.
- Directory creation (`os.makedirs`) and logging (`print`) have no effect on
  any state the claims mention and are not modelled.
-/

namespace BatoDownloader

/-- OUTPUT_DIR constant from the config block (line 11 of the source). -/
def OUTPUT_DIR : String := "output"

/-- Chapter descriptor as returned by `get_manga_info`: a dict with keys
`url` and `title` (used at lines 69 and 76 of the source). -/
structure Chapter where
  url : String
  title : String
deriving DecidableEq, Repr

/-- FailureRecord as built at lines 100-106 of the source: the dict
`{"manga_title": ..., "chapter_title": ..., "chapter_url": ...}`. -/
structure FailureRecord where
  manga_title : String
  chapter_title : String
  chapter_url : String
deriving DecidableEq, Repr

/-- PackagingTask as enqueued at lines 91-97 of the source: the dict
`{"chapter_dir": ..., "manga_title": ..., "chapter_title": ...}`. -/
structure PackagingTask where
  chapter_dir : String
  manga_title : String
  chapter_title : String
deriving DecidableEq, Repr

/-- Content of the `failed_chapters.json` file: either a parseable JSON list
of failure records, or text that `json.load` rejects. -/
inductive FileContent where
  | records (rs : List FailureRecord)
  | corrupt
deriving DecidableEq, Repr

/-- load_failed_chapters (source lines 22-29): if the file does not exist
return `[]`; otherwise `json.load` it, returning `[]` on `JSONDecodeError`. -/
def load_failed_chapters : Option FileContent → List FailureRecord
  | none => []
  | some .corrupt => []
  | some (.records rs) => rs

/-- save_failed_chapters (source lines 32-36): `if not failed: return` leaves
the file untouched; otherwise open with mode "w" and `json.dump` the list,
replacing any previous content. -/
def save_failed_chapters (failed : List FailureRecord) (disk : Option FileContent) :
    Option FileContent :=
  if failed.isEmpty then disk
  else some (.records failed)

/-- os.path.join for the two-component joins used by the source. -/
def pathJoin (a b : String) : String := a ++ "/" ++ b

/-! Decimal rendering and zero padding.

Python's `str(index)` and `str.zfill(pad_length)` (source lines 65 and 68) are
embedded as operations on most-significant-first lists of decimal digit
values, rendered to a `String` at the end. `digitsRevFuel` is a fuel-based
structurally recursive computation of the least-significant-first digit list;
the bridge lemma below identifies it with Mathlib's `Nat.digits 10`. -/

/-- Least-significant-first decimal digits of `n`, with explicit fuel
(`fuel ≥ n` suffices for the answer to be complete). -/
def digitsRevFuel : Nat → Nat → List Nat
  | _, 0 => []
  | 0, _ + 1 => []
  | fuel + 1, n + 1 => (n + 1) % 10 :: digitsRevFuel fuel ((n + 1) / 10)

/-- Python `str(n)` for a natural number, as the most-significant-first list
of its decimal digit values; `str(0) = "0"`. -/
def pyStr (n : Nat) : List Nat :=
  if n = 0 then [0] else (digitsRevFuel n n).reverse

/-- Python `str.zfill`: left-pad with zero digits up to `width` (no-op when
the string is already at least `width` long). -/
def zfill (width : Nat) (s : List Nat) : List Nat :=
  List.replicate (width - s.length) 0 ++ s

/-- pad_length (source line 65): `len(str(total))`. -/
def padLength (total : Nat) : Nat := (pyStr total).length

/-- Rendering of one decimal digit value to its character. -/
def digitToChar (d : Nat) : Char :=
  match d with
  | 0 => '0' | 1 => '1' | 2 => '2' | 3 => '3' | 4 => '4'
  | 5 => '5' | 6 => '6' | 7 => '7' | 8 => '8' | 9 => '9'
  | _ => '?'

/-- The zero-padded sequence number `str(index).zfill(pad_length)` from
source line 68, as a string. -/
def paddedIndexString (pad index : Nat) : String :=
  String.mk ((zfill pad (pyStr index)).map digitToChar)

/-- numbered_title (source lines 68-70):
`f"{prefix}_{clean_title}"` with `clean_title = sanitize_filename(chapter["title"])`. -/
def numberedTitle (sanitize : String → String) (pad index : Nat) (title : String) : String :=
  paddedIndexString pad index ++ "_" ++ sanitize title

/-- Value of a most-significant-first decimal digit list. -/
def valMSB : List Nat → Nat
  | [] => 0
  | d :: ds => d * 10 ^ ds.length + valMSB ds

/-! The per-series orchestrator. -/

/-- Argument record of one `download_chapter` call; the remaining Python
keyword arguments (`output_dir`, `stop_event`, conversion flags,
`max_workers`) are constants at every call site and carry no information. -/
structure DownloadArgs where
  chapter_url : String
  manga_title : String
  chapter_title : String
deriving DecidableEq, Repr

/-- Process-level mutable state the orchestrator touches: the module-global
`chapter_queue` (line 18) and the ledger file on disk. -/
structure PipelineState where
  queue : List PackagingTask
  disk : Option FileContent
deriving DecidableEq, Repr

/-- chapter_dir as computed at lines 86-90 and 135-139:
`os.path.join(OUTPUT_DIR, sanitize_filename(title), sanitize_filename(chapter_title))`. -/
def chapterDirFor (sanitize : String → String) (manga_title chapter_title : String) : String :=
  pathJoin (pathJoin OUTPUT_DIR (sanitize manga_title)) (sanitize chapter_title)

/-- The `download_chapter` invocation of one loop iteration of
`download_series` (lines 75-85), keyed by the data-bearing arguments. -/
def chapterArgs (sanitize : String → String) (manga_title : String) (pad index : Nat)
    (c : Chapter) : DownloadArgs :=
  ⟨c.url, manga_title, numberedTitle sanitize pad index c.title⟩

/-- The PackagingTask enqueued at lines 91-97 for a successfully downloaded
chapter. -/
def chapterTask (sanitize : String → String) (manga_title : String) (pad index : Nat)
    (c : Chapter) : PackagingTask :=
  ⟨chapterDirFor sanitize manga_title (numberedTitle sanitize pad index c.title),
    manga_title, numberedTitle sanitize pad index c.title⟩

/-- The FailureRecord appended at lines 100-106 for a failed chapter. -/
def chapterRecord (sanitize : String → String) (manga_title : String) (pad index : Nat)
    (c : Chapter) : FailureRecord :=
  ⟨manga_title, numberedTitle sanitize pad index c.title, c.url⟩

/-- Body of one iteration of the chapter loop (source lines 67-108): try the
download; on success `put` one task on the queue; on exception append a
FailureRecord to the local `failed` list and persist the ledger, then
continue. -/
def downloadChapterStep (sanitize : String → String) (dl : DownloadArgs → Bool)
    (manga_title : String) (pad index : Nat) (c : Chapter)
    (acc : List FailureRecord × PipelineState) : List FailureRecord × PipelineState :=
  if dl (chapterArgs sanitize manga_title pad index c) then
    (acc.1, ⟨acc.2.queue ++ [chapterTask sanitize manga_title pad index c], acc.2.disk⟩)
  else
    let failed := acc.1 ++ [chapterRecord sanitize manga_title pad index c]
    (failed, ⟨acc.2.queue, save_failed_chapters failed acc.2.disk⟩)

/-- The chapter loop `for index, chapter in enumerate(chapters, start=1)`
(source line 67), threading the local `failed` list and the process state. -/
def downloadLoop (sanitize : String → String) (dl : DownloadArgs → Bool)
    (manga_title : String) (pad : Nat) :
    Nat → List Chapter → List FailureRecord × PipelineState →
      List FailureRecord × PipelineState
  | _, [], acc => acc
  | index, c :: rest, acc =>
    downloadLoop sanitize dl manga_title pad (index + 1) rest
      (downloadChapterStep sanitize dl manga_title pad index c acc)

/-- download_series (source lines 44-110). `info` is the outcome of the
`get_manga_info(series_url)` call: `Except.error` when it raised (caught at
lines 51-53, returning `[]`), otherwise the `(manga_title, chapters)` pair.
An empty chapter list returns `[]` at once (lines 55-57). Otherwise the
chapter loop runs with `pad_length = len(str(len(chapters)))` and 1-based
enumeration. The returned pair is (accumulated `failed` list, final state). -/
def download_series (sanitize : String → String) (dl : DownloadArgs → Bool)
    (info : Except String (String × List Chapter)) (st : PipelineState) :
    List FailureRecord × PipelineState :=
  match info with
  | .error _ => ([], st)
  | .ok (manga_title, chapters) =>
    if chapters.isEmpty then ([], st)
    else
      downloadLoop sanitize dl manga_title (padLength chapters.length) 1 chapters ([], st)

/-- Tasks enqueued by the chapter loop, in order, starting at position
`index`: one per chapter whose download succeeded. -/
def tasksFrom (sanitize : String → String) (dl : DownloadArgs → Bool)
    (manga_title : String) (pad : Nat) : Nat → List Chapter → List PackagingTask
  | _, [] => []
  | index, c :: rest =>
    (if dl (chapterArgs sanitize manga_title pad index c) then
        [chapterTask sanitize manga_title pad index c]
      else []) ++ tasksFrom sanitize dl manga_title pad (index + 1) rest

/-- Failure records accumulated by the chapter loop, in order, starting at
position `index`: one per chapter whose download raised. -/
def failuresFrom (sanitize : String → String) (dl : DownloadArgs → Bool)
    (manga_title : String) (pad : Nat) : Nat → List Chapter → List FailureRecord
  | _, [] => []
  | index, c :: rest =>
    (if dl (chapterArgs sanitize manga_title pad index c) then []
      else [chapterRecord sanitize manga_title pad index c])
      ++ failuresFrom sanitize dl manga_title pad (index + 1) rest

/-! The retry pass. -/

/-- The `download_chapter` invocation of the retry loop (lines 124-134): the
stored `chapter_url`, `manga_title`, `chapter_title` of the record, with no
metadata fetch. -/
def retryArgs (chap : FailureRecord) : DownloadArgs :=
  ⟨chap.chapter_url, chap.manga_title, chap.chapter_title⟩

/-- The PackagingTask enqueued at lines 140-146 for a successful retry. -/
def retryTask (sanitize : String → String) (chap : FailureRecord) : PackagingTask :=
  ⟨chapterDirFor sanitize chap.manga_title chap.chapter_title,
    chap.manga_title, chap.chapter_title⟩

/-- Body of one iteration of the retry loop (lines 122-150): on success `put`
a task; on exception append the unchanged record to `new_failed`. -/
def retryStep (sanitize : String → String) (dl : DownloadArgs → Bool)
    (acc : List FailureRecord × PipelineState) (chap : FailureRecord) :
    List FailureRecord × PipelineState :=
  if dl (retryArgs chap) then
    (acc.1, ⟨acc.2.queue ++ [retryTask sanitize chap], acc.2.disk⟩)
  else
    (acc.1 ++ [chap], acc.2)

/-- Tasks enqueued by the retry loop, in order: one per record whose retry
succeeded. -/
def retryTasks (sanitize : String → String) (dl : DownloadArgs → Bool)
    (rs : List FailureRecord) : List PackagingTask :=
  rs.filterMap (fun r => if dl (retryArgs r) then some (retryTask sanitize r) else none)

/-- The `new_failed` list built by the retry loop: exactly the records whose
retry raised, unchanged and in order. -/
def retryFailures (dl : DownloadArgs → Bool) (rs : List FailureRecord) :
    List FailureRecord :=
  rs.filter (fun r => !dl (retryArgs r))

/-- retry_failed (source lines 113-160): reload the ledger; return unchanged
when it is empty; otherwise retry every record, save `new_failed`, and when
`new_failed` is empty remove the ledger file if it exists. -/
def retry_failed (sanitize : String → String) (dl : DownloadArgs → Bool)
    (st : PipelineState) : PipelineState :=
  let failed := load_failed_chapters st.disk
  if failed.isEmpty then st
  else
    let res := failed.foldl (retryStep sanitize dl) ([], st)
    let st1 : PipelineState := ⟨res.2.queue, save_failed_chapters res.1 res.2.disk⟩
    if res.1.isEmpty then ⟨st1.queue, none⟩ else st1

/-! The packaging worker and the shutdown protocol. -/

/-- State the converter worker touches: the count of `task_done` calls, the
list of successfully converted chapters, and the ledger file (which the
worker never opens; carrying it makes that provable). -/
structure ConvState where
  done_count : Nat
  packaged : List PackagingTask
  disk : Option FileContent
deriving DecidableEq, Repr

/-- Body of one successful `get` in `converter_worker` (lines 173-186):
convert; on exception only log; in both cases `task_done` runs exactly once
(the `finally` block). -/
def converter_handle (conv : PackagingTask → Bool) (s : ConvState) (item : PackagingTask) :
    ConvState :=
  if conv item then ⟨s.done_count + 1, s.packaged ++ [item], s.disk⟩
  else ⟨s.done_count + 1, s.packaged, s.disk⟩

/-- The worker loop `while not stop_event.is_set() or not chapter_queue.empty()`
(line 167), run against a fixed stop flag and queue snapshot with no new
producers, with fuel bounding the number of loop iterations. `none` means the
fuel ran out with the loop still running; `some (q, s)` means the loop exited
with `q` still unprocessed. An empty `get` (the `queue.Empty` timeout at
lines 169-171) re-enters the loop. -/
def converter_worker_run (conv : PackagingTask → Bool) (stop_set : Bool) :
    Nat → List PackagingTask → ConvState → Option (List PackagingTask × ConvState)
  | 0, _, _ => none
  | fuel + 1, q, s =>
    if !stop_set || !q.isEmpty then
      match q with
      | [] => converter_worker_run conv stop_set fuel [] s
      | item :: rest => converter_worker_run conv stop_set fuel rest (converter_handle conv s item)
    else some (q, s)

/-- Shutdown-relevant actions of the `__main__` block, in program order
(source lines 212-215): `retry_failed()`, `chapter_queue.join()`,
`stop_event.set()`, `converter_thread.join()`. -/
inductive MainStep where
  | retryFailedCall
  | queueJoin
  | stopSet
  | threadJoin
deriving DecidableEq, Repr

/-- The order in which the `__main__` block performs its shutdown actions
(source lines 212-215). -/
def main_shutdown_sequence : List MainStep :=
  [MainStep.retryFailedCall, MainStep.queueJoin, MainStep.stopSet, MainStep.threadJoin]

/-! Basic lemmas about the ledger operations. -/

lemma save_failed_chapters_nil (disk : Option FileContent) :
    save_failed_chapters [] disk = disk := rfl

lemma save_failed_chapters_of_ne_nil {failed : List FailureRecord}
    (h : failed ≠ []) (disk : Option FileContent) :
    save_failed_chapters failed disk = some (.records failed) := by
  unfold save_failed_chapters
  cases failed with
  | nil => exact absurd rfl h
  | cons a l => rfl

lemma save_failed_chapters_append_singleton (l : List FailureRecord)
    (r : FailureRecord) (disk : Option FileContent) :
    save_failed_chapters (l ++ [r]) disk = some (.records (l ++ [r])) :=
  save_failed_chapters_of_ne_nil (by simp) disk

/-! Characterization of the chapter loop of `download_series`. -/

lemma downloadLoop_spec (sanitize : String → String) (dl : DownloadArgs → Bool)
    (manga_title : String) (pad : Nat) :
    ∀ (cs : List Chapter) (index : Nat) (failed : List FailureRecord) (st : PipelineState),
      downloadLoop sanitize dl manga_title pad index cs (failed, st)
        = (failed ++ failuresFrom sanitize dl manga_title pad index cs,
           ⟨st.queue ++ tasksFrom sanitize dl manga_title pad index cs,
            if failuresFrom sanitize dl manga_title pad index cs = [] then st.disk
            else some (.records (failed ++ failuresFrom sanitize dl manga_title pad index cs))⟩) := by
  intro cs
  induction cs with
  | nil => intro index failed st; simp [downloadLoop, failuresFrom, tasksFrom]
  | cons c rest ih =>
    intro index failed st
    rw [downloadLoop]
    by_cases hdl : dl (chapterArgs sanitize manga_title pad index c) = true
    · have hstep : downloadChapterStep sanitize dl manga_title pad index c (failed, st)
          = (failed, ⟨st.queue ++ [chapterTask sanitize manga_title pad index c], st.disk⟩) := by
        simp [downloadChapterStep, hdl]
      rw [hstep, ih]
      simp [failuresFrom, tasksFrom, hdl]
    · rw [Bool.not_eq_true] at hdl
      have hstep : downloadChapterStep sanitize dl manga_title pad index c (failed, st)
          = (failed ++ [chapterRecord sanitize manga_title pad index c],
             ⟨st.queue,
              some (.records (failed ++ [chapterRecord sanitize manga_title pad index c]))⟩) := by
        simp [downloadChapterStep, hdl, save_failed_chapters_append_singleton]
      rw [hstep, ih]
      by_cases hF : failuresFrom sanitize dl manga_title pad (index + 1) rest = []
      · simp [failuresFrom, tasksFrom, hdl, hF]
      · simp [failuresFrom, tasksFrom, hdl, hF]

lemma download_series_spec (sanitize : String → String) (dl : DownloadArgs → Bool)
    (manga_title : String) (cs : List Chapter) (st : PipelineState) (hne : cs ≠ []) :
    download_series sanitize dl (Except.ok (manga_title, cs)) st
      = (failuresFrom sanitize dl manga_title (padLength cs.length) 1 cs,
         ⟨st.queue ++ tasksFrom sanitize dl manga_title (padLength cs.length) 1 cs,
          if failuresFrom sanitize dl manga_title (padLength cs.length) 1 cs = [] then st.disk
          else some (.records
            (failuresFrom sanitize dl manga_title (padLength cs.length) 1 cs))⟩) := by
  have hemp : cs.isEmpty = false := by
    cases cs with
    | nil => exact absurd rfl hne
    | cons a l => rfl
  rw [download_series, hemp]
  simp only [Bool.false_eq_true, if_false]
  rw [downloadLoop_spec]
  simp

/-! Characterization of the retry pass. -/

lemma retry_foldl_spec (sanitize : String → String) (dl : DownloadArgs → Bool) :
    ∀ (rs : List FailureRecord) (acc : List FailureRecord × PipelineState),
      rs.foldl (retryStep sanitize dl) acc
        = (acc.1 ++ retryFailures dl rs,
           ⟨acc.2.queue ++ retryTasks sanitize dl rs, acc.2.disk⟩) := by
  intro rs
  induction rs with
  | nil => intro acc; simp [retryFailures, retryTasks]
  | cons r rest ih =>
    intro acc
    rw [List.foldl_cons]
    by_cases hdl : dl (retryArgs r) = true
    · have hstep : retryStep sanitize dl acc r
          = (acc.1, ⟨acc.2.queue ++ [retryTask sanitize r], acc.2.disk⟩) := by
        simp [retryStep, hdl]
      rw [hstep, ih]
      simp [retryFailures, retryTasks, hdl]
    · rw [Bool.not_eq_true] at hdl
      have hstep : retryStep sanitize dl acc r = (acc.1 ++ [r], acc.2) := by
        simp [retryStep, hdl]
      rw [hstep, ih]
      simp [retryFailures, retryTasks, hdl]

lemma retry_failed_spec (sanitize : String → String) (dl : DownloadArgs → Bool)
    (st : PipelineState) (hne : load_failed_chapters st.disk ≠ []) :
    retry_failed sanitize dl st
      = ⟨st.queue ++ retryTasks sanitize dl (load_failed_chapters st.disk),
         if retryFailures dl (load_failed_chapters st.disk) = [] then none
         else some (.records (retryFailures dl (load_failed_chapters st.disk)))⟩ := by
  have hemp : (load_failed_chapters st.disk).isEmpty = false := by
    cases h : load_failed_chapters st.disk with
    | nil => exact absurd h hne
    | cons a l => rfl
  rw [retry_failed]
  simp only [hemp, Bool.false_eq_true, if_false]
  rw [retry_foldl_spec]
  by_cases hF : retryFailures dl (load_failed_chapters st.disk) = []
  · simp [hF, save_failed_chapters_nil]
  · have : (retryFailures dl (load_failed_chapters st.disk)).isEmpty = false := by
      cases h : retryFailures dl (load_failed_chapters st.disk) with
      | nil => exact absurd h hF
      | cons a l => rfl
    simp [hF, this, save_failed_chapters_of_ne_nil hF]

/-! Lemmas about the decimal rendering and the zero padding. -/

lemma digitsRevFuel_eq : ∀ (fuel n : Nat), n ≤ fuel → digitsRevFuel fuel n = Nat.digits 10 n := by
  intro fuel
  induction fuel with
  | zero =>
    intro n hn
    interval_cases n
    simp [digitsRevFuel]
  | succ fuel ih =>
    intro n hn
    cases n with
    | zero => simp [digitsRevFuel]
    | succ m =>
      rw [digitsRevFuel, Nat.digits_def' (by norm_num : (1:ℕ) < 10) (Nat.succ_pos m)]
      have hdiv : (m + 1) / 10 ≤ fuel := by
        have : (m + 1) / 10 < m + 1 := Nat.div_lt_self (Nat.succ_pos m) (by norm_num)
        omega
      rw [ih _ hdiv]

lemma pyStr_eq (n : Nat) :
    pyStr n = if n = 0 then [0] else (Nat.digits 10 n).reverse := by
  unfold pyStr
  by_cases h : n = 0
  · simp [h]
  · simp [h, digitsRevFuel_eq n n le_rfl]

lemma pyStr_ne_nil (n : Nat) : pyStr n ≠ [] := by
  rw [pyStr_eq]
  by_cases h : n = 0
  · simp [h]
  · simp [h, Nat.digits_ne_nil_iff_ne_zero.mpr h]

lemma pyStr_length_pos (n : Nat) : 0 < (pyStr n).length :=
  List.length_pos.mpr (pyStr_ne_nil n)

lemma pyStr_digit_lt (n : Nat) : ∀ d ∈ pyStr n, d < 10 := by
  intro d hd
  rw [pyStr_eq] at hd
  by_cases h : n = 0
  · simp [h] at hd
    omega
  · simp only [h, if_false, List.mem_reverse] at hd
    exact Nat.digits_lt_base (by norm_num) hd

lemma pyStr_length_mono {i n : Nat} (h : i ≤ n) :
    (pyStr i).length ≤ (pyStr n).length := by
  by_cases hi : i = 0
  · subst hi
    rw [pyStr_eq]
    simpa using pyStr_length_pos n
  · have hn : n ≠ 0 := by omega
    rw [pyStr_eq, pyStr_eq]
    simp only [hi, hn, if_false, List.length_reverse]
    rw [Nat.digits_len 10 i (by norm_num) hi, Nat.digits_len 10 n (by norm_num) hn]
    exact Nat.add_le_add_right (Nat.log_mono_right h) 1

lemma valMSB_append (a b : List Nat) :
    valMSB (a ++ b) = valMSB a * 10 ^ b.length + valMSB b := by
  induction a with
  | nil => simp [valMSB]
  | cons d a ih =>
    simp only [List.cons_append, valMSB, ih, List.append_eq, List.length_append, pow_add]
    ring

lemma valMSB_replicate_zero (k : Nat) : valMSB (List.replicate k 0) = 0 := by
  induction k with
  | zero => rfl
  | succ k ih => simp [List.replicate_succ, valMSB, ih]

lemma valMSB_reverse (l : List Nat) : valMSB l.reverse = Nat.ofDigits 10 l := by
  induction l with
  | nil => rfl
  | cons d tl ih =>
    rw [List.reverse_cons, valMSB_append, ih, Nat.ofDigits_cons]
    simp [valMSB]
    ring

lemma valMSB_pyStr (n : Nat) : valMSB (pyStr n) = n := by
  rw [pyStr_eq]
  by_cases h : n = 0
  · simp [h, valMSB]
  · simp only [h, if_false]
    rw [valMSB_reverse, Nat.ofDigits_digits]

lemma valMSB_lt_pow {l : List Nat} (hl : ∀ d ∈ l, d < 10) :
    valMSB l < 10 ^ l.length := by
  induction l with
  | nil => simp [valMSB]
  | cons d tl ih =>
    have hd : d < 10 := hl d (List.mem_cons_self d tl)
    have htl : valMSB tl < 10 ^ tl.length := ih (fun x hx => hl x (List.mem_cons_of_mem d hx))
    have h1 : valMSB (d :: tl) < (d + 1) * 10 ^ tl.length := by
      simp only [valMSB, Nat.succ_mul]
      exact Nat.add_lt_add_left htl _
    have h2 : (d + 1) * 10 ^ tl.length ≤ 10 * 10 ^ tl.length :=
      Nat.mul_le_mul_right _ (by omega)
    calc valMSB (d :: tl) < (d + 1) * 10 ^ tl.length := h1
      _ ≤ 10 * 10 ^ tl.length := h2
      _ = 10 ^ (d :: tl).length := by rw [List.length_cons, pow_succ]; ring

lemma zfill_length {width : Nat} {s : List Nat} (h : s.length ≤ width) :
    (zfill width s).length = width := by
  simp only [zfill, List.length_append, List.length_replicate]
  omega

lemma zfill_val (width : Nat) (s : List Nat) : valMSB (zfill width s) = valMSB s := by
  simp [zfill, valMSB_append, valMSB_replicate_zero]

lemma zfill_digit_lt {width : Nat} {s : List Nat} (h : ∀ d ∈ s, d < 10) :
    ∀ d ∈ zfill width s, d < 10 := by
  intro d hd
  simp only [zfill, List.mem_append, List.mem_replicate] at hd
  rcases hd with ⟨_, rfl⟩ | hd
  · omega
  · exact h d hd

/-- Lexicographic comparison of equal-length digit strings agrees with
numeric comparison. -/
lemma lex_of_valMSB_lt :
    ∀ (a b : List Nat), a.length = b.length → (∀ d ∈ b, d < 10) →
      valMSB a < valMSB b → List.Lex (· < ·) a b := by
  intro a
  induction a with
  | nil =>
    intro b hlen _ hval
    cases b with
    | nil => simp [valMSB] at hval
    | cons d tl => simp at hlen
  | cons d1 t1 ih =>
    intro b hlen hb hval
    cases b with
    | nil => simp at hlen
    | cons d2 t2 =>
      have hlen' : t1.length = t2.length := by simpa using hlen
      rcases Nat.lt_trichotomy d1 d2 with hlt | heq | hgt
      · exact List.Lex.rel hlt
      · subst heq
        have hv : valMSB t1 < valMSB t2 := by
          simp only [valMSB, hlen'] at hval
          omega
        exact List.Lex.cons (ih t2 hlen' (fun x hx => hb x (List.mem_cons_of_mem _ hx)) hv)
      · exfalso
        have ht2 : valMSB t2 < 10 ^ t2.length :=
          valMSB_lt_pow (fun x hx => hb x (List.mem_cons_of_mem d2 hx))
        have h1 : valMSB (d2 :: t2) < (d2 + 1) * 10 ^ t2.length := by
          simp only [valMSB, Nat.succ_mul]
          exact Nat.add_lt_add_left ht2 _
        have h2 : (d2 + 1) * 10 ^ t2.length ≤ d1 * 10 ^ t1.length := by
          rw [hlen']
          exact Nat.mul_le_mul_right _ (by omega)
        have h3 : d1 * 10 ^ t1.length ≤ valMSB (d1 :: t1) := Nat.le_add_right _ _
        have : valMSB (d2 :: t2) < valMSB (d1 :: t1) := lt_of_lt_of_le (lt_of_lt_of_le h1 h2) h3
        omega

lemma padded_length {n i : Nat} (h : i ≤ n) :
    (zfill (padLength n) (pyStr i)).length = padLength n :=
  zfill_length (pyStr_length_mono h)

lemma padded_val (pad i : Nat) : valMSB (zfill pad (pyStr i)) = i := by
  rw [zfill_val, valMSB_pyStr]

lemma padded_digit_lt (pad i : Nat) : ∀ d ∈ zfill pad (pyStr i), d < 10 :=
  zfill_digit_lt (pyStr_digit_lt i)

lemma padded_lex {n i j : Nat} (hij : i < j) (hj : j ≤ n) :
    List.Lex (· < ·) (zfill (padLength n) (pyStr i)) (zfill (padLength n) (pyStr j)) := by
  apply lex_of_valMSB_lt
  · rw [padded_length (le_trans (le_of_lt hij) hj), padded_length hj]
  · exact padded_digit_lt _ _
  · rw [padded_val, padded_val]
    exact hij

lemma padded_inj {n i j : Nat} (h : zfill (padLength n) (pyStr i) = zfill (padLength n) (pyStr j)) :
    i = j := by
  have := congrArg valMSB h
  rwa [padded_val, padded_val] at this

lemma digitToChar_lt_digitToChar {d1 d2 : Nat} (h1 : d1 < d2) (h2 : d2 < 10) :
    digitToChar d1 < digitToChar d2 := by
  interval_cases d2 <;> interval_cases d1 <;> decide

lemma digitToChar_inj {d1 d2 : Nat} (h1 : d1 < 10) (h2 : d2 < 10)
    (h : digitToChar d1 = digitToChar d2) : d1 = d2 := by
  interval_cases d1 <;> interval_cases d2 <;> revert h <;> decide

lemma lex_map_digitToChar {a b : List Nat} (h : List.Lex (· < ·) a b)
    (hb : ∀ d ∈ b, d < 10) :
    List.Lex (· < ·) (a.map digitToChar) (b.map digitToChar) := by
  induction h with
  | nil => exact List.Lex.nil
  | rel hab => exact List.Lex.rel (digitToChar_lt_digitToChar hab (hb _ (List.mem_cons_self _ _)))
  | cons _ ih => exact List.Lex.cons (ih (fun x hx => hb x (List.mem_cons_of_mem _ hx)))

lemma map_digitToChar_inj :
    ∀ (a b : List Nat), (∀ d ∈ a, d < 10) → (∀ d ∈ b, d < 10) →
      a.map digitToChar = b.map digitToChar → a = b := by
  intro a
  induction a with
  | nil =>
    intro b _ _ h
    cases b with
    | nil => rfl
    | cons e b => simp at h
  | cons d a ih =>
    intro b ha hb h
    cases b with
    | nil => simp at h
    | cons e b =>
      simp only [List.map_cons, List.cons.injEq] at h
      have hd : d = e :=
        digitToChar_inj (ha d (List.mem_cons_self _ _)) (hb e (List.mem_cons_self _ _)) h.1
      have ht : a = b :=
        ih b (fun x hx => ha x (List.mem_cons_of_mem _ hx))
          (fun x hx => hb x (List.mem_cons_of_mem _ hx)) h.2
      rw [hd, ht]

lemma paddedIndexString_data (pad i : Nat) :
    (paddedIndexString pad i).data = (zfill pad (pyStr i)).map digitToChar := rfl

lemma paddedIndexString_length {n i : Nat} (h : i ≤ n) :
    (paddedIndexString (padLength n) i).data.length = padLength n := by
  rw [paddedIndexString_data, List.length_map, padded_length h]

lemma paddedIndexString_lex {n i j : Nat} (hij : i < j) (hj : j ≤ n) :
    List.Lex (· < ·) (paddedIndexString (padLength n) i).data
      (paddedIndexString (padLength n) j).data := by
  rw [paddedIndexString_data, paddedIndexString_data]
  exact lex_map_digitToChar (padded_lex hij hj) (padded_digit_lt _ _)

lemma paddedIndexString_inj {n i j : Nat}
    (h : paddedIndexString (padLength n) i = paddedIndexString (padLength n) j) : i = j := by
  have hd := congrArg String.data h
  rw [paddedIndexString_data, paddedIndexString_data] at hd
  exact padded_inj (map_digitToChar_inj _ _ (padded_digit_lt _ _) (padded_digit_lt _ _) hd)

lemma lex_ne_of_lt {a b : List Char} (h : List.Lex (· < ·) a b) : a ≠ b := by
  intro heq
  subst heq
  induction a with
  | nil => cases h
  | cons c l ih =>
    cases h with
    | cons h => exact ih h
    | rel h => exact absurd h (lt_irrefl c)

lemma paddedIndexString_ne {n i j : Nat} (hij : i ≠ j) :
    paddedIndexString (padLength n) i ≠ paddedIndexString (padLength n) j :=
  fun h => hij (paddedIndexString_inj h)

/-- Two numbered titles within one series can only coincide when they come
from the same position: the zero-padded sequence prefixes have equal length
and determine the position. -/
lemma numberedTitle_pos_inj (sanitize : String → String) {n i j : Nat} {x y : String}
    (hi : i ≤ n) (hj : j ≤ n)
    (h : numberedTitle sanitize (padLength n) i x = numberedTitle sanitize (padLength n) j y) :
    i = j := by
  unfold numberedTitle at h
  have hd := congrArg String.data h
  simp only [String.data_append, List.append_assoc] at hd
  have hlen : (paddedIndexString (padLength n) i).data.length
      = (paddedIndexString (padLength n) j).data.length := by
    rw [paddedIndexString_length hi, paddedIndexString_length hj]
  have := (List.append_inj hd hlen).1
  exact paddedIndexString_inj (by apply String.ext; exact this)

/-! Per-chapter counting lemmas: the chapter at a given position contributes
exactly one task (on success) or exactly one failure record (on failure), and
no other position can contribute an artifact with the same numbered title. -/

lemma tasksFrom_append (s : String → String) (dl : DownloadArgs → Bool) (mt : String)
    (pad : Nat) :
    ∀ (cs ds : List Chapter) (index : Nat),
      tasksFrom s dl mt pad index (cs ++ ds)
        = tasksFrom s dl mt pad index cs ++ tasksFrom s dl mt pad (index + cs.length) ds := by
  intro cs
  induction cs with
  | nil => intro ds index; simp [tasksFrom]
  | cons c rest ih =>
    intro ds index
    have harith : index + (c :: rest).length = (index + 1) + rest.length := by
      simp [List.length_cons]
      omega
    simp only [List.cons_append, tasksFrom, List.append_eq, ih, harith, List.append_assoc]

lemma failuresFrom_append (s : String → String) (dl : DownloadArgs → Bool) (mt : String)
    (pad : Nat) :
    ∀ (cs ds : List Chapter) (index : Nat),
      failuresFrom s dl mt pad index (cs ++ ds)
        = failuresFrom s dl mt pad index cs
          ++ failuresFrom s dl mt pad (index + cs.length) ds := by
  intro cs
  induction cs with
  | nil => intro ds index; simp [failuresFrom]
  | cons c rest ih =>
    intro ds index
    have harith : index + (c :: rest).length = (index + 1) + rest.length := by
      simp [List.length_cons]
      omega
    simp only [List.cons_append, failuresFrom, List.append_eq, ih, harith, List.append_assoc]

lemma title_of_mem_tasksFrom (s : String → String) (dl : DownloadArgs → Bool) (mt : String)
    (pad : Nat) :
    ∀ (cs : List Chapter) (index : Nat) (task : PackagingTask),
      task ∈ tasksFrom s dl mt pad index cs →
      ∃ (k : Nat) (c : Chapter),
        k < cs.length ∧ task.chapter_title = numberedTitle s pad (index + k) c.title := by
  intro cs
  induction cs with
  | nil => intro index task h; simp [tasksFrom] at h
  | cons c rest ih =>
    intro index task h
    rw [tasksFrom, List.mem_append] at h
    rcases h with h | h
    · refine ⟨0, c, Nat.succ_pos _, ?_⟩
      by_cases hdl : dl (chapterArgs s mt pad index c) = true
      · simp only [hdl, if_true, List.mem_singleton] at h
        rw [h]
        rfl
      · rw [Bool.not_eq_true] at hdl
        simp [hdl] at h
    · obtain ⟨k, c', hk, ht⟩ := ih (index + 1) task h
      exact ⟨k + 1, c', by simpa using hk, by rw [ht]; congr 1; omega⟩

lemma title_of_mem_failuresFrom (s : String → String) (dl : DownloadArgs → Bool) (mt : String)
    (pad : Nat) :
    ∀ (cs : List Chapter) (index : Nat) (r : FailureRecord),
      r ∈ failuresFrom s dl mt pad index cs →
      ∃ (k : Nat) (c : Chapter),
        k < cs.length ∧ r.chapter_title = numberedTitle s pad (index + k) c.title := by
  intro cs
  induction cs with
  | nil => intro index r h; simp [failuresFrom] at h
  | cons c rest ih =>
    intro index r h
    rw [failuresFrom, List.mem_append] at h
    rcases h with h | h
    · refine ⟨0, c, Nat.succ_pos _, ?_⟩
      by_cases hdl : dl (chapterArgs s mt pad index c) = true
      · simp [hdl] at h
      · rw [Bool.not_eq_true] at hdl
        simp only [hdl, Bool.false_eq_true, if_false, List.mem_singleton] at h
        rw [h]
        rfl
    · obtain ⟨k, c', hk, ht⟩ := ih (index + 1) r h
      exact ⟨k + 1, c', by simpa using hk, by rw [ht]; congr 1; omega⟩

lemma tasksFrom_filter_eq_nil (s : String → String) (dl : DownloadArgs → Bool) (mt : String)
    (n : Nat) (cs : List Chapter) (index i0 : Nat) (x : String)
    (hbound : index + cs.length ≤ n + 1) (hi0 : i0 ≤ n)
    (hpos : ∀ k, k < cs.length → index + k ≠ i0) :
    (tasksFrom s dl mt (padLength n) index cs).filter
      (fun task => task.chapter_title == numberedTitle s (padLength n) i0 x) = [] := by
  rw [List.filter_eq_nil_iff]
  intro task htask
  obtain ⟨k, c, hk, htitle⟩ := title_of_mem_tasksFrom s dl mt _ cs index task htask
  simp only [beq_iff_eq, Bool.not_eq_true]
  rw [htitle]
  by_contra hcontra
  have : index + k = i0 := numberedTitle_pos_inj s (by omega) hi0 hcontra
  exact hpos k hk this

lemma failuresFrom_filter_eq_nil (s : String → String) (dl : DownloadArgs → Bool) (mt : String)
    (n : Nat) (cs : List Chapter) (index i0 : Nat) (x : String)
    (hbound : index + cs.length ≤ n + 1) (hi0 : i0 ≤ n)
    (hpos : ∀ k, k < cs.length → index + k ≠ i0) :
    (failuresFrom s dl mt (padLength n) index cs).filter
      (fun r => r.chapter_title == numberedTitle s (padLength n) i0 x) = [] := by
  rw [List.filter_eq_nil_iff]
  intro r hr
  obtain ⟨k, c, hk, htitle⟩ := title_of_mem_failuresFrom s dl mt _ cs index r hr
  simp only [beq_iff_eq, Bool.not_eq_true]
  rw [htitle]
  by_contra hcontra
  have : index + k = i0 := numberedTitle_pos_inj s (by omega) hi0 hcontra
  exact hpos k hk this

lemma tasksFrom_filter_split (s : String → String) (dl : DownloadArgs → Bool) (mt : String)
    (n : Nat) (pre post : List Chapter) (c : Chapter)
    (hn : pre.length + 1 + post.length = n) :
    (tasksFrom s dl mt (padLength n) 1 (pre ++ c :: post)).filter
        (fun task => task.chapter_title
          == numberedTitle s (padLength n) (pre.length + 1) c.title)
      = if dl (chapterArgs s mt (padLength n) (pre.length + 1) c) = true then
          [chapterTask s mt (padLength n) (pre.length + 1) c]
        else [] := by
  rw [tasksFrom_append]
  simp only [tasksFrom]
  have h1 : 1 + pre.length = pre.length + 1 := Nat.add_comm 1 _
  rw [h1, List.filter_append, List.filter_append]
  rw [tasksFrom_filter_eq_nil s dl mt n pre 1 (pre.length + 1) c.title
    (by omega) (by omega) (fun k hk => by omega)]
  rw [tasksFrom_filter_eq_nil s dl mt n post (pre.length + 1 + 1) (pre.length + 1) c.title
    (by omega) (by omega) (fun k hk => by omega)]
  by_cases hdl : dl (chapterArgs s mt (padLength n) (pre.length + 1) c) = true
  · simp [hdl, chapterTask, List.filter]
  · rw [Bool.not_eq_true] at hdl
    simp [hdl]

lemma failuresFrom_filter_split (s : String → String) (dl : DownloadArgs → Bool) (mt : String)
    (n : Nat) (pre post : List Chapter) (c : Chapter)
    (hn : pre.length + 1 + post.length = n) :
    (failuresFrom s dl mt (padLength n) 1 (pre ++ c :: post)).filter
        (fun r => r.chapter_title
          == numberedTitle s (padLength n) (pre.length + 1) c.title)
      = if dl (chapterArgs s mt (padLength n) (pre.length + 1) c) = true then []
        else [chapterRecord s mt (padLength n) (pre.length + 1) c] := by
  rw [failuresFrom_append]
  simp only [failuresFrom]
  have h1 : 1 + pre.length = pre.length + 1 := Nat.add_comm 1 _
  rw [h1, List.filter_append, List.filter_append]
  rw [failuresFrom_filter_eq_nil s dl mt n pre 1 (pre.length + 1) c.title
    (by omega) (by omega) (fun k hk => by omega)]
  rw [failuresFrom_filter_eq_nil s dl mt n post (pre.length + 1 + 1) (pre.length + 1) c.title
    (by omega) (by omega) (fun k hk => by omega)]
  by_cases hdl : dl (chapterArgs s mt (padLength n) (pre.length + 1) c) = true
  · simp [hdl]
  · rw [Bool.not_eq_true] at hdl
    simp [hdl, chapterRecord, List.filter]

/-! Theorems for the individual claims. -/

/-- Claim C5: `load_failed_chapters` returns an empty sequence both when no
ledger file exists and when the file content is unparseable JSON, and returns
the stored records otherwise; no case raises out of the load. -/
theorem load_failed_chapters_total :
    load_failed_chapters none = []
    ∧ load_failed_chapters (some FileContent.corrupt) = []
    ∧ ∀ rs : List FailureRecord, load_failed_chapters (some (FileContent.records rs)) = rs :=
  ⟨rfl, rfl, fun _ => rfl⟩

/-- Claim C6: when the metadata fetch raises, `download_series` returns an
empty failure list and leaves the queue and the ledger untouched; when the
fetch returns zero chapters it likewise returns an empty list at once. -/
theorem download_series_fetch_error_noop :
    (∀ (s : String → String) (dl : DownloadArgs → Bool) (e : String) (st : PipelineState),
      download_series s dl (Except.error e) st = ([], st))
    ∧ ∀ (s : String → String) (dl : DownloadArgs → Bool) (mt : String) (st : PipelineState),
      download_series s dl (Except.ok (mt, [])) st = ([], st) :=
  ⟨fun _ _ _ _ => rfl, fun _ _ _ _ => rfl⟩

/-- Claim C1 (counterexample): calling `save_failed_chapters` with an empty
sequence does NOT remove the persisted ledger state: with a one-record
ledger file on disk, the file is still there, unchanged, after the call. -/
theorem save_empty_leaves_file_counterexample :
    save_failed_chapters [] (some (FileContent.records [⟨"m", "c", "u"⟩]))
      = some (FileContent.records [⟨"m", "c", "u"⟩])
    ∧ some (FileContent.records [⟨"m", "c", "u"⟩]) ≠ (none : Option FileContent) :=
  ⟨rfl, Option.some_ne_none _⟩

/-- Claim C1 (amended): `save_failed_chapters` called with an empty sequence
is a no-op that leaves the persisted state exactly as it was — in particular
it does not delete the ledger file; removal of the file is instead performed
by `retry_failed` itself, which deletes it after the retry pass when no
retry failure remains. -/
theorem save_empty_noop_retry_removes :
    (∀ disk : Option FileContent, save_failed_chapters [] disk = disk)
    ∧ ∀ (s : String → String) (dl : DownloadArgs → Bool) (st : PipelineState),
        load_failed_chapters st.disk ≠ [] →
        (∀ r ∈ load_failed_chapters st.disk, dl (retryArgs r) = true) →
        (retry_failed s dl st).disk = none := by
  constructor
  · exact save_failed_chapters_nil
  · intro s dl st hne hall
    rw [retry_failed_spec s dl st hne]
    have hF : retryFailures dl (load_failed_chapters st.disk) = [] := by
      rw [retryFailures, List.filter_eq_nil_iff]
      intro r hr
      simp [hall r hr]
    simp [hF]

/-- Witness for the amended claim C1: a concrete one-record ledger whose
retry succeeds ends with the ledger file removed. -/
theorem save_empty_noop_retry_removes_witness :
    load_failed_chapters (some (FileContent.records [⟨"M", "01_A", "u"⟩])) ≠ []
    ∧ (retry_failed id (fun _ => true)
        ⟨[], some (FileContent.records [⟨"M", "01_A", "u"⟩])⟩).disk = none := by
  refine ⟨by decide, ?_⟩
  exact save_empty_noop_retry_removes.2 id (fun _ => true)
    ⟨[], some (FileContent.records [⟨"M", "01_A", "u"⟩])⟩ (by decide) (fun _ _ => rfl)

/-- Claim C10: a non-empty save replaces the whole persisted ledger with
exactly the argument sequence, whatever was on disk before (full overwrite,
not a merge); consequently the incremental save inside `download_series`
leaves on disk exactly that series' local failure list. -/
theorem save_overwrites_ledger :
    (∀ (failed : List FailureRecord) (d : Option FileContent), failed ≠ [] →
      save_failed_chapters failed d = some (FileContent.records failed))
    ∧ ∀ (s : String → String) (dl : DownloadArgs → Bool) (mt : String)
        (cs : List Chapter) (st : PipelineState), cs ≠ [] →
        (download_series s dl (Except.ok (mt, cs)) st).1 ≠ [] →
        (download_series s dl (Except.ok (mt, cs)) st).2.disk
          = some (FileContent.records (download_series s dl (Except.ok (mt, cs)) st).1) := by
  constructor
  · intro failed d h
    exact save_failed_chapters_of_ne_nil h d
  · intro s dl mt cs st hcs hfail
    rw [download_series_spec s dl mt cs st hcs] at hfail ⊢
    simp only at hfail ⊢
    rw [if_neg hfail]

/-- Witness for claim C10: saving one record over a ledger holding a
different record leaves exactly the new record on disk. -/
theorem save_overwrites_ledger_witness :
    ([⟨"m", "c", "u"⟩] : List FailureRecord) ≠ []
    ∧ save_failed_chapters [⟨"m", "c", "u"⟩]
        (some (FileContent.records [⟨"m2", "c2", "u2"⟩]))
      = some (FileContent.records [⟨"m", "c", "u"⟩]) :=
  ⟨by decide,
    save_overwrites_ledger.1 [⟨"m", "c", "u"⟩]
      (some (FileContent.records [⟨"m2", "c2", "u2"⟩])) (by decide)⟩

/-- Claim C7: when a chapter download raises, the loop body appends exactly
one FailureRecord (series title, numbered chapter title, chapter url) to the
local list, persists the ledger at that point, and leaves the queue alone;
the loop then continues with the next chapter, and `download_series` returns
the failure list accumulated over all chapters. -/
theorem download_series_failure_recorded_and_continues :
    (∀ (s : String → String) (dl : DownloadArgs → Bool) (mt : String) (pad index : Nat)
        (c : Chapter) (failed : List FailureRecord) (st : PipelineState),
      dl (chapterArgs s mt pad index c) = false →
      downloadChapterStep s dl mt pad index c (failed, st)
        = (failed ++ [chapterRecord s mt pad index c],
           ⟨st.queue,
            save_failed_chapters (failed ++ [chapterRecord s mt pad index c]) st.disk⟩))
    ∧ (∀ (s : String → String) (dl : DownloadArgs → Bool) (mt : String) (pad index : Nat)
        (c : Chapter) (rest : List Chapter) (acc : List FailureRecord × PipelineState),
      downloadLoop s dl mt pad index (c :: rest) acc
        = downloadLoop s dl mt pad (index + 1) rest (downloadChapterStep s dl mt pad index c acc))
    ∧ ∀ (s : String → String) (dl : DownloadArgs → Bool) (mt : String)
        (cs : List Chapter) (st : PipelineState), cs ≠ [] →
        (download_series s dl (Except.ok (mt, cs)) st).1
          = failuresFrom s dl mt (padLength cs.length) 1 cs := by
  refine ⟨?_, ?_, ?_⟩
  · intro s dl mt pad index c failed st hdl
    simp [downloadChapterStep, hdl]
  · intro s dl mt pad index c rest acc
    rfl
  · intro s dl mt cs st hcs
    rw [download_series_spec s dl mt cs st hcs]

/-- Witness for claim C7: a concrete failing chapter appends its record and
persists it. -/
theorem download_series_failure_recorded_witness :
    (fun _ => false : DownloadArgs → Bool) (chapterArgs id "M" 1 1 ⟨"u", "A"⟩) = false
    ∧ downloadChapterStep id (fun _ => false) "M" 1 1 ⟨"u", "A"⟩ ([], ⟨[], none⟩)
        = ([chapterRecord id "M" 1 1 ⟨"u", "A"⟩],
           ⟨[], save_failed_chapters [chapterRecord id "M" 1 1 ⟨"u", "A"⟩] none⟩) :=
  ⟨rfl, download_series_failure_recorded_and_continues.1 id (fun _ => false) "M" 1 1
    ⟨"u", "A"⟩ [] ⟨[], none⟩ rfl⟩

/-- Claim C3: `retry_failed` reloads the persisted ledger, retries every
record's chapter download from its stored URL (the loop touches no metadata
fetch), enqueues one PackagingTask per successful retry, and rebuilds the
persisted ledger from exactly the records whose retry failed; when all
loaded records succeed, the ledger is empty and the file is removed. -/
theorem retry_failed_rebuilds_ledger (s : String → String) (dl : DownloadArgs → Bool)
    (st : PipelineState) (hne : load_failed_chapters st.disk ≠ []) :
    (retry_failed s dl st).queue
        = st.queue ++ retryTasks s dl (load_failed_chapters st.disk)
    ∧ load_failed_chapters (retry_failed s dl st).disk
        = retryFailures dl (load_failed_chapters st.disk)
    ∧ ((∀ r ∈ load_failed_chapters st.disk, dl (retryArgs r) = true) →
        (retry_failed s dl st).disk = none) := by
  rw [retry_failed_spec s dl st hne]
  refine ⟨rfl, ?_, ?_⟩
  · dsimp only
    by_cases hF : retryFailures dl (load_failed_chapters st.disk) = []
    · rw [if_pos hF, hF]
      rfl
    · rw [if_neg hF]
      rfl
  · intro hall
    have hF : retryFailures dl (load_failed_chapters st.disk) = [] := by
      rw [retryFailures, List.filter_eq_nil_iff]
      intro r hr
      simp [hall r hr]
    dsimp only
    rw [if_pos hF]

/-- Witness for claim C3: one loaded record whose retry succeeds produces
its packaging task. -/
theorem retry_failed_rebuilds_ledger_witness :
    load_failed_chapters (some (FileContent.records [⟨"M", "01_A", "u"⟩])) ≠ []
    ∧ (retry_failed id (fun _ => true)
          ⟨[], some (FileContent.records [⟨"M", "01_A", "u"⟩])⟩).queue
        = [] ++ retryTasks id (fun _ => true)
            (load_failed_chapters (some (FileContent.records [⟨"M", "01_A", "u"⟩]))) := by
  refine ⟨by decide, ?_⟩
  exact (retry_failed_rebuilds_ledger id (fun _ => true)
    ⟨[], some (FileContent.records [⟨"M", "01_A", "u"⟩])⟩ (by decide)).1

/-- Claim C4: the packaging worker loop can only exit in a state where the
stop signal is set AND the queue is empty — it never exits while unprocessed
tasks remain — and the main block joins the queue (waits for it to drain)
strictly before it sets the stop event. -/
theorem converter_worker_drain_before_exit :
    (∀ (conv : PackagingTask → Bool) (stop_set : Bool) (fuel : Nat)
        (q : List PackagingTask) (s : ConvState) (out : List PackagingTask × ConvState),
      converter_worker_run conv stop_set fuel q s = some out →
      stop_set = true ∧ out.1 = [])
    ∧ main_shutdown_sequence.indexOf MainStep.queueJoin
        < main_shutdown_sequence.indexOf MainStep.stopSet := by
  constructor
  · intro conv stop_set fuel
    induction fuel with
    | zero =>
      intro q s out h
      exact Option.noConfusion h
    | succ fuel ih =>
      intro q s out h
      cases stop_set with
      | false =>
        cases q with
        | nil => exact ih [] s out h
        | cons item rest => exact ih rest _ out h
      | true =>
        cases q with
        | nil =>
          have hout : (([] : List PackagingTask), s) = out := Option.some.inj h
          exact ⟨rfl, by rw [← hout]⟩
        | cons item rest => exact ih rest _ out h
  · decide

/-- Witness for claim C4: a concrete exited run has the stop flag set and an
empty remaining queue. -/
theorem converter_worker_drain_before_exit_witness :
    converter_worker_run (fun _ => true) true 1 [] ⟨0, [], none⟩
      = some ([], ⟨0, [], none⟩)
    ∧ (true = true
        ∧ (([], (⟨0, [], none⟩ : ConvState)) : List PackagingTask × ConvState).1 = []) :=
  ⟨rfl, converter_worker_drain_before_exit.1 (fun _ => true) true 1 [] ⟨0, [], none⟩
    ([], ⟨0, [], none⟩) rfl⟩

/-- Claim C9: when the Packager raises on a task, the worker drops it: the
ledger is untouched, nothing is recorded, `task_done` runs exactly once (the
`finally` block), and the loop goes on to consume the remaining tasks
instead of terminating. -/
theorem converter_failure_dropped_and_continues :
    (∀ (conv : PackagingTask → Bool) (item : PackagingTask) (s : ConvState),
      conv item = false →
      converter_handle conv s item = ⟨s.done_count + 1, s.packaged, s.disk⟩)
    ∧ ∀ (conv : PackagingTask → Bool) (stop_set : Bool) (fuel : Nat)
        (item : PackagingTask) (rest : List PackagingTask) (s : ConvState),
      converter_worker_run conv stop_set (fuel + 1) (item :: rest) s
        = converter_worker_run conv stop_set fuel rest (converter_handle conv s item) := by
  constructor
  · intro conv item s h
    simp [converter_handle, h]
  · intro conv stop_set fuel item rest s
    rw [converter_worker_run.eq_def]
    simp [List.isEmpty]

/-- Witness for claim C9: a concrete failing conversion leaves the state
unchanged apart from one `task_done`. -/
theorem converter_failure_dropped_witness :
    (fun _ => false : PackagingTask → Bool) ⟨"d", "m", "c"⟩ = false
    ∧ converter_handle (fun _ => false) ⟨0, [], none⟩ ⟨"d", "m", "c"⟩ = ⟨0 + 1, [], none⟩ :=
  ⟨rfl, converter_failure_dropped_and_continues.1 (fun _ => false) ⟨"d", "m", "c"⟩
    ⟨0, [], none⟩ rfl⟩

lemma chapterTask_mem_tasksFrom (s : String → String) (dl : DownloadArgs → Bool)
    (mt : String) (pad : Nat) :
    ∀ (cs : List Chapter) (index k : Nat) (hk : k < cs.length),
      dl (chapterArgs s mt pad (index + k) (cs.get ⟨k, hk⟩)) = true →
      chapterTask s mt pad (index + k) (cs.get ⟨k, hk⟩) ∈ tasksFrom s dl mt pad index cs := by
  intro cs
  induction cs with
  | nil =>
    intro index k hk
    exact absurd hk (by simp)
  | cons c rest ih =>
    intro index k hk hdl
    rw [tasksFrom, List.mem_append]
    cases k with
    | zero =>
      left
      have hdl' : dl (chapterArgs s mt pad index c) = true := hdl
      rw [if_pos hdl']
      exact List.mem_singleton.mpr rfl
    | succ k =>
      right
      have hk' : k < rest.length := by simpa using hk
      have harith : index + (k + 1) = index + 1 + k := by omega
      rw [harith] at hdl ⊢
      exact ih (index + 1) k hk' hdl

lemma chapterRecord_mem_failuresFrom (s : String → String) (dl : DownloadArgs → Bool)
    (mt : String) (pad : Nat) :
    ∀ (cs : List Chapter) (index k : Nat) (hk : k < cs.length),
      dl (chapterArgs s mt pad (index + k) (cs.get ⟨k, hk⟩)) = false →
      chapterRecord s mt pad (index + k) (cs.get ⟨k, hk⟩)
        ∈ failuresFrom s dl mt pad index cs := by
  intro cs
  induction cs with
  | nil =>
    intro index k hk
    exact absurd hk (by simp)
  | cons c rest ih =>
    intro index k hk hdl
    rw [failuresFrom, List.mem_append]
    cases k with
    | zero =>
      left
      have hdl' : dl (chapterArgs s mt pad index c) = false := hdl
      rw [if_neg (by rw [hdl']; exact Bool.false_ne_true)]
      exact List.mem_singleton.mpr rfl
    | succ k =>
      right
      have hk' : k < rest.length := by simpa using hk
      have harith : index + (k + 1) = index + 1 + k := by omega
      rw [harith] at hdl ⊢
      exact ih (index + 1) k hk' hdl

/-- Claim C2: in one orchestration pass, every chapter produces exactly one
of the two outcomes: a successful download enqueues exactly one
PackagingTask for that chapter's numbered title and leaves no FailureRecord
for it, while a failed download enqueues nothing and produces exactly one
FailureRecord for it. -/
theorem download_series_chapter_exclusive
    (s : String → String) (dl : DownloadArgs → Bool) (mt : String)
    (cs : List Chapter) (st : PipelineState) (hne : cs ≠ []) :
    (download_series s dl (Except.ok (mt, cs)) st).2.queue
        = st.queue ++ tasksFrom s dl mt (padLength cs.length) 1 cs
    ∧ (download_series s dl (Except.ok (mt, cs)) st).1
        = failuresFrom s dl mt (padLength cs.length) 1 cs
    ∧ ∀ (i : Nat) (hi : i < cs.length),
        (dl (chapterArgs s mt (padLength cs.length) (i + 1) (cs.get ⟨i, hi⟩)) = true →
            ((download_series s dl (Except.ok (mt, cs)) st).2.queue.filter
                (fun task => task.chapter_title
                  == numberedTitle s (padLength cs.length) (i + 1) (cs.get ⟨i, hi⟩).title)).length
              = (st.queue.filter
                (fun task => task.chapter_title
                  == numberedTitle s (padLength cs.length) (i + 1) (cs.get ⟨i, hi⟩).title)).length
                + 1
            ∧ (download_series s dl (Except.ok (mt, cs)) st).1.filter
                (fun r => r.chapter_title
                  == numberedTitle s (padLength cs.length) (i + 1) (cs.get ⟨i, hi⟩).title) = [])
        ∧ (dl (chapterArgs s mt (padLength cs.length) (i + 1) (cs.get ⟨i, hi⟩)) = false →
            ((download_series s dl (Except.ok (mt, cs)) st).2.queue.filter
                (fun task => task.chapter_title
                  == numberedTitle s (padLength cs.length) (i + 1) (cs.get ⟨i, hi⟩).title)).length
              = (st.queue.filter
                (fun task => task.chapter_title
                  == numberedTitle s (padLength cs.length) (i + 1) (cs.get ⟨i, hi⟩).title)).length
            ∧ ((download_series s dl (Except.ok (mt, cs)) st).1.filter
                (fun r => r.chapter_title
                  == numberedTitle s (padLength cs.length) (i + 1) (cs.get ⟨i, hi⟩).title)).length
              = 1) := by
  have hspec := download_series_spec s dl mt cs st hne
  refine ⟨by rw [hspec], by rw [hspec], ?_⟩
  intro i hi
  rw [hspec]
  dsimp only
  obtain ⟨c, hc⟩ : ∃ c, cs.get ⟨i, hi⟩ = c := ⟨_, rfl⟩
  rw [hc]
  have hcs : cs = cs.take i ++ c :: cs.drop (i + 1) := by
    conv_lhs => rw [← List.take_append_drop i cs]
    rw [List.drop_eq_getElem_cons hi, ← hc, List.get_eq_getElem]
  have htake : (cs.take i).length = i := by
    rw [List.length_take]
    omega
  have hn : (cs.take i).length + 1 + (cs.drop (i + 1)).length = cs.length := by
    rw [htake, List.length_drop]
    omega
  have htasks := tasksFrom_filter_split s dl mt cs.length (cs.take i) (cs.drop (i + 1)) c hn
  have hfails := failuresFrom_filter_split s dl mt cs.length (cs.take i) (cs.drop (i + 1)) c hn
  rw [htake] at htasks hfails
  have e1 : tasksFrom s dl mt (padLength cs.length) 1 cs
      = tasksFrom s dl mt (padLength cs.length) 1 (cs.take i ++ c :: cs.drop (i + 1)) :=
    congrArg (tasksFrom s dl mt (padLength cs.length) 1) hcs
  have e2 : failuresFrom s dl mt (padLength cs.length) 1 cs
      = failuresFrom s dl mt (padLength cs.length) 1 (cs.take i ++ c :: cs.drop (i + 1)) :=
    congrArg (failuresFrom s dl mt (padLength cs.length) 1) hcs
  constructor
  · intro hdl
    constructor
    · rw [List.filter_append, e1, htasks, if_pos hdl]
      simp
    · rw [e2, hfails, if_pos hdl]
  · intro hdl
    have hdl' : ¬ dl (chapterArgs s mt (padLength cs.length) (i + 1) c) = true := by
      rw [hdl]
      exact Bool.false_ne_true
    constructor
    · rw [List.filter_append, e1, htasks, if_neg hdl']
      simp
    · rw [e2, hfails, if_neg hdl']
      simp

/-- Witness for claim C2: a concrete two-chapter series where the first
download succeeds and the second fails. -/
theorem download_series_chapter_exclusive_witness :
    ([⟨"u1", "A"⟩, ⟨"u2", "B"⟩] : List Chapter) ≠ []
    ∧ (download_series id (fun a => a.chapter_url == "u1")
          (Except.ok ("M", [⟨"u1", "A"⟩, ⟨"u2", "B"⟩])) ⟨[], none⟩).2.queue
        = [] ++ tasksFrom id (fun a => a.chapter_url == "u1") "M"
            (padLength ([⟨"u1", "A"⟩, ⟨"u2", "B"⟩] : List Chapter).length) 1
            [⟨"u1", "A"⟩, ⟨"u2", "B"⟩] :=
  ⟨by decide,
    (download_series_chapter_exclusive id (fun a => a.chapter_url == "u1") "M"
      [⟨"u1", "A"⟩, ⟨"u2", "B"⟩] ⟨[], none⟩ (by decide)).1⟩

/-- Claim C8: for a series of n chapters, the chapter at (0-based) position
i is numbered with the 1-based position rendered in decimal and zero-padded
to the digit count of n, followed by an underscore and the sanitized title;
that artifact reaches the queue or the failure list, and the padded numeric
strings are pairwise distinct and strictly increasing (lexicographically on
their characters) in list order. -/
theorem chapter_numbering_unique_monotone
    (s : String → String) (dl : DownloadArgs → Bool) (mt : String)
    (cs : List Chapter) (st : PipelineState) (hne : cs ≠ [])
    (i j : Nat) (hi : i < cs.length) (hj : j < cs.length) :
    numberedTitle s (padLength cs.length) (i + 1) (cs.get ⟨i, hi⟩).title
        = paddedIndexString (padLength cs.length) (i + 1) ++ "_" ++ s (cs.get ⟨i, hi⟩).title
    ∧ (dl (chapterArgs s mt (padLength cs.length) (i + 1) (cs.get ⟨i, hi⟩)) = true →
        ∃ task ∈ (download_series s dl (Except.ok (mt, cs)) st).2.queue,
          task.chapter_title
            = numberedTitle s (padLength cs.length) (i + 1) (cs.get ⟨i, hi⟩).title)
    ∧ (dl (chapterArgs s mt (padLength cs.length) (i + 1) (cs.get ⟨i, hi⟩)) = false →
        ∃ r ∈ (download_series s dl (Except.ok (mt, cs)) st).1,
          r.chapter_title
            = numberedTitle s (padLength cs.length) (i + 1) (cs.get ⟨i, hi⟩).title)
    ∧ (i < j →
        List.Lex (· < ·) (paddedIndexString (padLength cs.length) (i + 1)).data
          (paddedIndexString (padLength cs.length) (j + 1)).data)
    ∧ (i ≠ j →
        paddedIndexString (padLength cs.length) (i + 1)
          ≠ paddedIndexString (padLength cs.length) (j + 1)) := by
  have hspec := download_series_spec s dl mt cs st hne
  refine ⟨rfl, ?_, ?_, ?_, ?_⟩
  · intro hdl
    refine ⟨chapterTask s mt (padLength cs.length) (i + 1) (cs.get ⟨i, hi⟩), ?_, rfl⟩
    rw [hspec]
    dsimp only
    rw [List.mem_append]
    right
    have := chapterTask_mem_tasksFrom s dl mt (padLength cs.length) cs 1 i hi
    rw [Nat.add_comm 1 i] at this
    exact this hdl
  · intro hdl
    refine ⟨chapterRecord s mt (padLength cs.length) (i + 1) (cs.get ⟨i, hi⟩), ?_, rfl⟩
    rw [hspec]
    dsimp only
    have := chapterRecord_mem_failuresFrom s dl mt (padLength cs.length) cs 1 i hi
    rw [Nat.add_comm 1 i] at this
    exact this hdl
  · intro hij
    exact paddedIndexString_lex (by omega) (by omega)
  · intro hij
    exact paddedIndexString_ne (by omega)

/-- Witness for claim C8: in a two-chapter series the first padded number is
lexicographically below the second. -/
theorem chapter_numbering_unique_monotone_witness :
    (([⟨"u1", "A"⟩, ⟨"u2", "B"⟩] : List Chapter) ≠ []
      ∧ (0 : Nat) < 2 ∧ (1 : Nat) < 2 ∧ (0 : Nat) < 1)
    ∧ List.Lex (· < ·) (paddedIndexString (padLength 2) 1).data
        (paddedIndexString (padLength 2) 2).data := by
  refine ⟨by decide, ?_⟩
  exact (chapter_numbering_unique_monotone id (fun _ => true) "M"
      [⟨"u1", "A"⟩, ⟨"u2", "B"⟩] ⟨[], none⟩ (by decide) 0 1 (by decide) (by decide)).2.2.2.1
    (by decide)

end BatoDownloader
